import Mathlib

/-!
Verification development for the mission-control server.

The repository is a Node.js dashboard server that tails an append-only log,
projects log lines onto a mission-pipeline state, keeps a bounded approval
ledger, and talks to an external gateway over a WebSocket RPC channel.
Below, the relevant functions are shallowly embedded as pure Lean functions:

* JavaScript string operations (substring test, truthiness, regex captures)
  are modelled over lists of characters;
* the mutable server `state` object is a `ServerState` record, and each
  handler is a state-transformer;
* `setTimeout` callbacks are modelled as explicitly scheduled `Timer` values
  fired by an event-loop runner (`runTimers` / `runScenario`), reflecting the
  single-threaded JavaScript execution model;
* `JSON.parse` is abstracted: an input line is given either as its parsed
  field-keyed record (`Line.parsed`) or as raw text on which parsing fails
  (`Line.raw`).
-/

/-! ## JavaScript string primitives -/

/-- Prefix test on character lists (helper for the substring test). -/
def isPrefixL : List Char → List Char → Bool
  | [], _ => true
  | _ :: _, [] => false
  | p :: ps, c :: cs => p = c && isPrefixL ps cs

/-- Substring test on character lists: `hasSubstrL pat l` is true iff `pat`
occurs contiguously in `l`. -/
def hasSubstrL (pat : List Char) : List Char → Bool
  | [] => pat.isEmpty
  | c :: rest => isPrefixL pat (c :: rest) || hasSubstrL pat rest

/-- JavaScript `s.includes(pat)`. -/
def jsIncludes (s pat : String) : Bool := hasSubstrL pat.toList s.toList

/-- JavaScript truthiness of an optional string value: `undefined`/`null`
(`none`) and the empty string are falsy. -/
def jsTruthyS : Option String → Bool
  | none => false
  | some s => s ≠ ""

/-- JavaScript chain `a || b || ... || d` over string-valued fields, with a
string default: the first truthy value wins. -/
def firstTruthyD : List (Option String) → String → String
  | [], d => d
  | x :: rest, d =>
    match x with
    | some s => if s = "" then firstTruthyD rest d else s
    | none => firstTruthyD rest d

/-- JavaScript `x || ""` for an optional string field. -/
def orEmpty (o : Option String) : String := firstTruthyD [o] ""

/-- JavaScript regex word character `\w` = `[A-Za-z0-9_]`. -/
def isWordChar (c : Char) : Bool := c.isAlphanum || c = '_'

/-- Character class `[\w-]` used by the approval-id regexes. -/
def isWordDashChar (c : Char) : Bool := isWordChar c || c = '-'

/-- Model of a JavaScript regex of shape `/<pat>(<cls>+)/` applied with
`String.match`: scan left to right for the first position where the literal
`pat` is followed by at least one character of class `cls`, and return the
maximal such capture. Returns `none` when the regex does not match. -/
def captureAfter (pat : List Char) (cls : Char → Bool) : List Char → Option (List Char)
  | [] => none
  | c :: rest =>
    if isPrefixL pat (c :: rest) then
      let w := (List.drop pat.length (c :: rest)).takeWhile cls
      if w.isEmpty then captureAfter pat cls rest else some w
    else captureAfter pat cls rest

/-- ASCII upper-casing of a string, JavaScript `s.toUpperCase()` for the
agent names appearing here. -/
def jsToUpper (s : String) : String := String.mk (s.toList.map Char.toUpper)

/-! ## Approval ledger (functions `approvalsUpsert` / `approvalsRemove`) -/

/-- An entry of `state.approvals`, and also the shape of `state.approvalPending`.
A field holding `none` models an absent (or `undefined`/`null`) JavaScript
key; the object spread keeps the value from `a` exactly for the keys absent
in `item`. -/
structure ApprovalItem where
  id : Option String
  command : Option String
  request : Option String
  receivedAt : Option Nat
deriving Repr, DecidableEq

/-- JavaScript `{...a, ...item}` on approval entries. -/
def mergeApproval (a item : ApprovalItem) : ApprovalItem :=
  { id := match item.id with | some s => some s | none => a.id
    command := match item.command with | some s => some s | none => a.command
    request := match item.request with | some s => some s | none => a.request
    receivedAt := match item.receivedAt with | some n => some n | none => a.receivedAt }

/-- The assignment the source performs at the index found by findIndex:
merge into the first entry whose id matches, leaving its position
unchanged. -/
def setMerge (item : ApprovalItem) : List ApprovalItem → List ApprovalItem
  | [] => []
  | a :: rest =>
    if a.id = item.id then mergeApproval a item :: rest
    else a :: setMerge item rest

/-! ## Server state -/

/-- One `state.workforce[councilId]` record (the `model` field is the constant
`MODELS` lookup and is carried by `MODELS` below). -/
structure WorkStatus where
  task : String
  ping : Bool
deriving Repr, DecidableEq

/-- The constant `MODELS` map of the source. -/
def MODELS (councilId : String) : Option String :=
  if councilId = "celebrimbor" then some "minimax-m2.5:cloud"
  else if councilId = "samwise" then some "gemini-3-flash"
  else if councilId = "legolas" then some "gemini-3-flash"
  else if councilId = "elrond" then some "mxbai-embed-large"
  else none

/-- The constant `COLORS` map of the source. -/
def COLORS (councilId : String) : Option String :=
  if councilId = "celebrimbor" then some "var(--accent-cyan)"
  else if councilId = "samwise" then some "#00ff88"
  else if councilId = "legolas" then some "var(--accent-red)"
  else if councilId = "elrond" then some "var(--accent-gold)"
  else none

/-- One entry of the bounded `state.skills` activity log. The `time` field
stands for the wall-clock timestamp (`new Date().toLocaleTimeString()`),
abstracted as the current tick `now`. -/
structure Skill where
  user : String
  skill : String
  target : String
  summary : String
  model : Option String
  time : Nat
  color : Option String
deriving Repr, DecidableEq

/-- A callback scheduled by `setTimeout` in `processLogLine` (part_000):
the tool-branch revert (sets the ping of the named council member to false
and the stage to reflection) and the run-finished delivery revert (sets the
stage to null and resets the assignment text). -/
inductive TimerAction where
  | toolRevert (councilId : String)
  | deliveryRevert
deriving Repr, DecidableEq

/-- A pending `setTimeout` callback with its absolute fire time. -/
structure Timer where
  fireAt : Nat
  action : TimerAction
deriving Repr, DecidableEq

/-- The mutable `state` object of the server (the fields the embedded
handlers touch; `pipeline.active` is a nullable string exactly as in the
source, `null` being `none`). -/
structure ServerState where
  pipelineActive : Option String
  approvalPending : Option ApprovalItem
  approvals : List ApprovalItem
  workforce : List (String × WorkStatus)
  gandalfCommand : String
  gandalfAssignment : String
  gandalfPing : Bool
  skills : List Skill
  timers : List Timer
deriving Repr, DecidableEq

/-- Update of `state.workforce[councilId]`. -/
def setWork (w : List (String × WorkStatus)) (councilId : String)
    (f : WorkStatus → WorkStatus) : List (String × WorkStatus) :=
  w.map (fun p => if p.1 = councilId then (p.1, f p.2) else p)

/-- The initial `state` literal of the source. -/
def initState : ServerState :=
  { pipelineActive := none
    approvalPending := none
    approvals := []
    workforce :=
      [("celebrimbor", ⟨"Idle", false⟩), ("samwise", ⟨"Idle", false⟩),
       ("legolas", ⟨"Idle", false⟩), ("elrond", ⟨"Idle", false⟩)]
    gandalfCommand := "Monitoring System Pulse..."
    gandalfAssignment := "Observing Council of Elrond"
    gandalfPing := false
    skills := []
    timers := [] }

/-- Function `approvalsUpsert(item)` from part_000 / part_001:
falsy id returns immediately; an existing id is merged in place; a new id is
unshifted to the front; the list is truncated to 20 and `approvalPending`
mirrors the front entry. -/
def approvalsUpsert (st : ServerState) (item : ApprovalItem) : ServerState :=
  if ¬ jsTruthyS item.id then st
  else
    let approvals :=
      if st.approvals.any (fun a => a.id = item.id)
      then setMerge item st.approvals
      else item :: st.approvals
    let approvals := approvals.take 20
    { st with approvals := approvals, approvalPending := approvals.head? }

/-- Function `approvalsRemove(id)` from part_000 / part_001. -/
def approvalsRemove (st : ServerState) (id : String) : ServerState :=
  let approvals := st.approvals.filter (fun a => ¬ (a.id = some id))
  { st with approvals := approvals, approvalPending := approvals.head? }

/-! ## Log-line extraction (`processLogLine`, part_000) -/

/-- The parsed shape of one log record, as the source reads it: numeric
string keys `log["0"]`, `log["1"]`, `log["2"]`, plus the named fields used
by `processLogLine`. All values the handler reads as strings are modelled as
optional strings (a missing key is `none`). -/
structure LogRecord where
  f0 : Option String
  f1 : Option String
  f2 : Option String
  msg : Option String
  subsystem : Option String
  metaName : Option String
  id : Option String
  requestId : Option String
  command : Option String
  kind : Option String
  tool : Option String
deriving Repr, DecidableEq

/-- A raw line after the `JSON.parse` attempt: either the parsed record, or
the raw text of a line on which parsing fails (also covering blank lines). -/
inductive Line where
  | parsed (log : LogRecord)
  | raw (s : String)
deriving Repr, DecidableEq

/-- Function `processLogLine(line)` of part_000 (lines 239-340), instrumented: the
returned list records, in execution order, every assignment performed to
`state.pipeline.active` while handling this single line. `now` is the
current tick; `setTimeout(cb, d)` becomes a `Timer` with `fireAt = now + d`.
A blank line returns immediately, and the `catch` block is empty, so the
`Line.raw` case leaves the state unchanged. -/
def processLogLine (now : Nat) (st : ServerState) (line : Line) :
    ServerState × List (Option String) :=
  match line with
  | .raw _ => (st, [])
  | .parsed log =>
    let msg := firstTruthyD [log.f0, log.f2, log.msg] ""
    let subsystem := orEmpty log.subsystem
    let metaName := orEmpty log.metaName
    let councilId :=
      if jsIncludes metaName "auditor" then "celebrimbor"
      else if jsIncludes metaName "main" || jsIncludes msg "main" then "samwise"
      else "celebrimbor"
    if subsystem = "gateway/exec-approvals" && (jsTruthyS log.id || jsTruthyS log.requestId) then
      ({ st with
          approvalPending := some
            { id := some (firstTruthyD [log.id, log.requestId] "")
              command := some (firstTruthyD [log.command, log.msg] "Restricted System Action")
              request := none
              receivedAt := none }
          pipelineActive := some "assignment"
          gandalfAssignment := "GATE OF BREE: Waiting for Hammer\x27s Mark..."
          gandalfPing := true },
       [some "assignment"])
    else if jsIncludes msg "Approval required" || jsIncludes msg "Permission requested" then
      let idMatch :=
        match captureAfter "ID: ".toList isWordDashChar msg.toList with
        | some w => some w
        | none => captureAfter "id: ".toList isWordDashChar msg.toList
      let st :=
        match idMatch with
        | some w =>
          { st with approvalPending := some
                        { id := some (String.mk w)
                          command := some msg
                          request := none
                          receivedAt := none } }
        | none => st
      ({ st with
          pipelineActive := some "assignment"
          gandalfAssignment := "GATE OF BREE: Pending User Approval..."
          gandalfPing := true },
       [some "assignment"])
    else
      let toolName : Option String :=
        if jsIncludes msg "Calling tool" then
          some (match captureAfter "Calling tool ".toList isWordChar msg.toList with
                | some w => String.mk w
                | none => "tool")
        else if jsIncludes msg "[tools]" then
          some (match captureAfter "[tools] ".toList isWordChar msg.toList with
                | some w => String.mk w
                | none => "tool")
        else if log.kind = some "tool_start" then
          some (firstTruthyD [log.tool] "process")
        else none
      match toolName with
      | some tn =>
        let newSkill : Skill :=
          { user := councilId
            skill := tn
            target := match log.f1 with
              | some s => if s = "" then "active pulse" else s.take 40
              | none => "active pulse"
            summary := "System action: " ++ tn
            model := MODELS councilId
            time := now
            color := COLORS councilId }
        let skills := newSkill :: st.skills
        let skills := if skills.length > 10 then skills.dropLast else skills
        ({ st with
            pipelineActive := some "execution"
            workforce := setWork st.workforce councilId
              (fun _ => { task := "Executing " ++ tn ++ "...", ping := true })
            gandalfAssignment := jsToUpper councilId ++ " is busy at the Forge."
            skills := skills
            timers := st.timers ++ [⟨now + 3000, .toolRevert councilId⟩] },
         [some "execution"])
      | none =>
        let (st, eff1) :=
          if jsIncludes msg "Received message" || jsIncludes msg "user_message"
              || log.kind = some "user_message" then
            ({ st with
                pipelineActive := some "consultation"
                gandalfCommand := "Hammer has spoken. Consulting the Council..." },
             [some "consultation"])
          else (st, [])
        let (st, eff2) :=
          if jsIncludes msg "Run completed" || jsIncludes msg "run_finish"
              || log.kind = some "run_finish" then
            ({ st with
                pipelineActive := some "delivery"
                approvalPending := none
                timers := st.timers ++ [⟨now + 5000, .deliveryRevert⟩] },
             [some "delivery"])
          else (st, [])
        (st, eff1 ++ eff2)

/-- The `catch` fallback of the older `server.mjs` variant (lines 477-484):
on a line that fails `JSON.parse`, only the text `Calling tool` is checked
against the raw line, setting the stage to execution; nothing else happens. -/
def processLogLineV0Fallback (st : ServerState) (line : String) : ServerState :=
  if line.trim = "" then st
  else if jsIncludes line "Calling tool" then { st with pipelineActive := some "execution" }
  else st

/-! ## Event loop: firing scheduled timers -/

/-- Body of the two `setTimeout` callbacks of part_000 `processLogLine`. -/
def fireTimer (st : ServerState) : TimerAction → ServerState
  | .toolRevert councilId =>
    { st with
        workforce := setWork st.workforce councilId (fun w => { w with ping := false })
        pipelineActive := some "reflection" }
  | .deliveryRevert =>
    { st with
        pipelineActive := none
        gandalfAssignment := "Observing Council of Elrond" }

/-- Least fire time among a list of timers. -/
def minFireAt (timers : List Timer) : Option Nat :=
  timers.foldl (fun acc tm =>
    match acc with
    | none => some tm.fireAt
    | some m => some (min m tm.fireAt)) none

/-- Remove the first timer with the given fire time. -/
def removeFirstAt (v : Nat) : List Timer → Option (Timer × List Timer)
  | [] => none
  | tm :: rest =>
    if tm.fireAt = v then some (tm, rest)
    else match removeFirstAt v rest with
      | some (x, l) => some (x, tm :: l)
      | none => none

/-- Fire, in fire-time order (earliest first, scheduling order on ties), every
scheduled callback due at or before time `t`. `fuel` bounds the number of
callbacks fired; the actions here schedule no further timers. -/
def advanceTo (fuel : Nat) (t : Nat) (st : ServerState) : ServerState :=
  match fuel with
  | 0 => st
  | fuel + 1 =>
    match minFireAt (st.timers.filter (fun tm => tm.fireAt ≤ t)) with
    | none => st
    | some v =>
      match removeFirstAt v st.timers with
      | none => st
      | some (tm, rest) => advanceTo fuel t (fireTimer { st with timers := rest } tm.action)

/-- Fire every timer due at or before `t`. -/
def runTimers (t : Nat) (st : ServerState) : ServerState :=
  advanceTo st.timers.length t st

/-- Run a timed scenario: each `(t, line)` first fires the timers due by `t`,
then processes the line at time `t`; finally the timers due by `tEnd` fire.
The state returned is the one observed at time `tEnd`. -/
def runScenario (evts : List (Nat × Line)) (tEnd : Nat) (st : ServerState) : ServerState :=
  match evts with
  | [] => runTimers tEnd st
  | (t, l) :: rest => runScenario rest tEnd (processLogLine t (runTimers t st) l).1

/-! ## Log tailer (`readNewData`, part_001 lines 396-426) -/

/-- JavaScript split of a chunk at newlines, on a character list: the list of maximal
newline-free segments, including empty ones and the unterminated trailing
fragment. Never returns the empty list. -/
def splitNl : List Char → List (List Char)
  | [] => [[]]
  | c :: rest =>
    if c = '\n' then [] :: splitNl rest
    else
      match splitNl rest with
      | [] => [[c]]
      | l :: ls => (c :: l) :: ls

/-- JavaScript `line.trim()` emptiness: every character is whitespace. The
tailer skips such lines (`if (!line.trim()) continue`). -/
def jsBlank (l : List Char) : Bool :=
  l.all (fun c => c = ' ' || c = '\t' || c = '\n' || c = '\r')

/-- The lines a single chunk contributes to `processLogLine`: its
newline-split segments with blank ones skipped. -/
def emitChunk (chunk : List Char) : List (List Char) :=
  (splitNl chunk).filter (fun l => ¬ jsBlank l)

/-- One tick of `readNewData`: given the current file content and the cursor
`offset`, return the new offset and the lines handed to `processLogLine`.
Faithful to the source: if `stat.size <= offset` the tick returns without
reading and without touching the offset (there is no truncation reset);
otherwise the byte range `[offset, size)` is read in full, the offset
advances by the bytes read, and the chunk is split and filtered as above.
The file is a character list (one byte per character for the ASCII inputs
considered). -/
def readNewData (file : List Char) (offset : Nat) : Nat × List (List Char) :=
  if file.length ≤ offset then (offset, [])
  else (file.length, emitChunk (file.drop offset))

/-- A sequence of appends polled one tick per append: starting from the empty
file at offset 0, each element of `chunks` is appended to the file and one
`readNewData` tick runs. Returns the final file, the final offset, and all
emitted lines in order. -/
def pollStep (acc : List Char × Nat × List (List Char)) (chunk : List Char) :
    List Char × Nat × List (List Char) :=
  let file := acc.1 ++ chunk
  let (off, lines) := readNewData file acc.2.1
  (file, off, acc.2.2 ++ lines)

def pollAppends (chunks : List (List Char)) : List Char × Nat × List (List Char) :=
  chunks.foldl pollStep ([], 0, [])

/-! ## Gateway RPC client (`gwRequest`, `gw.onmessage`, `gw.onclose`, part_000) -/

/-- A message arriving on the gateway WebSocket, after `JSON.parse`. Only the
fields the RPC-response classifier reads are modelled; `none` is an absent
key. -/
structure GwMsg where
  id : Option Nat
  ok : Option Bool
  result : Option String
  error : Option String
deriving Repr, DecidableEq

/-- The classifier of `gw.onmessage` for RPC responses: the id is a number
and at least one of the ok, result and error keys is present. -/
def isRpcResponse (m : GwMsg) : Bool :=
  m.id.isSome && (m.ok.isSome || m.result.isSome || m.error.isSome)

/-- JavaScript truthiness of the reply condition `msg.ok === false || msg.error`
selecting the reject path. -/
def replyRejects (m : GwMsg) : Bool :=
  m.ok = some false || (match m.error with | some e => e ≠ "" | none => false)

/-- The view of one pending call with a fixed id, as `gwRequest` leaves it
right after registering: `inTable` is membership of the id in `rpcPending`,
`timerArmed` says the 10 s timeout scheduled by `gwRequest` has been neither
fired nor cleared, and `resolves` / `rejects` count the invocations of the
stored `resolve` / `reject` callbacks of this call. -/
structure CallState where
  inTable : Bool
  timerArmed : Bool
  resolves : Nat
  rejects : Nat
deriving Repr, DecidableEq

/-- The state of a call just registered by `gwRequest`: entry in the table,
timeout armed, promise unsettled. -/
def gwRequestInit : CallState := ⟨true, true, 0, 0⟩

/-- An event-loop turn affecting the RPC layer: a `setTimeout` callback of
some call firing, or a WebSocket message arriving. -/
inductive RpcEvent where
  | timerFire (id : Nat)
  | message (m : GwMsg)
deriving Repr, DecidableEq

/-- One event-loop turn, viewed from the call with id `cid`.
The timeout callback (`rpcPending.delete(id); reject(...)`) runs only while
its timer is armed (`clearTimeout` in the reply path prevents it for good).
The reply path runs `const p = rpcPending.get(msg.id); if (!p) return;` and
then `clearTimeout(p.t); rpcPending.delete(msg.id);` before settling, so a
reply for an id absent from the table changes nothing. Turns for other ids
or non-response messages do not touch this call. -/
def rpcStep (cid : Nat) (s : CallState) : RpcEvent → CallState
  | .timerFire i =>
    if i = cid ∧ s.timerArmed then
      { inTable := false, timerArmed := false
        resolves := s.resolves, rejects := s.rejects + 1 }
    else s
  | .message m =>
    if isRpcResponse m ∧ m.id = some cid then
      if s.inTable then
        { inTable := false, timerArmed := false
          resolves := if replyRejects m then s.resolves else s.resolves + 1
          rejects := if replyRejects m then s.rejects + 1 else s.rejects }
      else s
    else s

/-- The connection-level state touched by `gw.onclose` (part_000 lines
148-152): the connected flag, the set of ids with a pending entry in
`rpcPending`, and the delay of a scheduled `connectGatewayWs` retry, if any. -/
structure GwConn where
  gwConnected : Bool
  rpcPendingIds : List Nat
  reconnectDelay : Option Nat
deriving Repr, DecidableEq

/-- Handler `gw.onclose` sets `gwConnected = false` and schedules
`setTimeout(connectGatewayWs, 1000)`. It does not touch `rpcPending`. -/
def gwOnClose (s : GwConn) : GwConn :=
  { s with gwConnected := false, reconnectDelay := some 1000 }

/-! ## Concrete inputs used by the witnesses and counterexamples -/

/-- A record with every field absent. -/
def emptyRecord : LogRecord :=
  { f0 := none, f1 := none, f2 := none, msg := none, subsystem := none
    metaName := none, id := none, requestId := none, command := none
    kind := none, tool := none }

/-- A tool-start log line: its message matches the `Calling tool` rule and no
earlier rule. -/
def toolLine : Line := .parsed { emptyRecord with f0 := some "Calling tool browser" }

/-- A user-message log line: its message matches the `Received message` rule
and no earlier rule. -/
def userLine : Line := .parsed { emptyRecord with f0 := some "Received message" }

/-- A log line whose message matches both the user-message rule and the
run-finished rule, and no earlier rule. -/
def bothLine : Line :=
  .parsed { emptyRecord with f0 := some "Received message; Run completed" }

/-- A raw line that fails JSON parsing and whose text matches the textual
approval rule. -/
def rawApprovalLine : String := "Approval required ID: req-42"

/-! ## Ledger and RPC inputs used by witnesses and counterexamples -/

/-- An approval entry with id a. -/
def itemA : ApprovalItem := { id := some "a", command := some "cmdA", request := none, receivedAt := some 1 }

/-- An approval entry with id b. -/
def itemB : ApprovalItem := { id := some "b", command := some "cmdB", request := none, receivedAt := some 2 }

/-- A later upsert for the already-present id b, carrying new fields. -/
def itemB2 : ApprovalItem := { id := some "b", command := some "deploy --force", request := none, receivedAt := some 9 }

/-- A ledger state holding ids a (front, most recent) and b. -/
def ledgerAB : ServerState := { initState with approvals := [itemA, itemB], approvalPending := some itemA }

/-- An upsert argument whose id key is absent, hence falsy. -/
def noIdItem : ApprovalItem := { id := none, command := some "orphan", request := none, receivedAt := some 3 }

/-- Twenty-five approval requests with pairwise distinct truthy ids. -/
def w25 : List ApprovalItem := (List.range 25).map (fun n => { id := some ("req-" ++ toString n), command := some "cmd", request := none, receivedAt := some n })

/-- A trace in which the timeout of call 1 fires and a matching reply arrives afterwards. -/
def trW : List RpcEvent :=
  [RpcEvent.timerFire 1, RpcEvent.message { id := some 1, ok := some true, result := some "done", error := none }]

/-- Invariant of one pending call under event-loop turns: table membership and the armed timer coincide, and the stored callbacks have been invoked exactly once as soon as the entry is retired. -/
def rpcInv (s : CallState) : Prop :=
  s.inTable = s.timerArmed ∧ s.resolves + s.rejects = (if s.inTable then 0 else 1)

/-! ## Helper lemmas -/

theorem setMerge_map_id (item : ApprovalItem) :
    ∀ l : List ApprovalItem, (setMerge item l).map (fun a => a.id) = l.map (fun a => a.id) := by
  intro l
  induction l with
  | nil => rfl
  | cons a rest ih =>
    by_cases h : a.id = item.id
    · simp only [setMerge, if_pos h, List.map_cons, ih]
      congr 1
      unfold mergeApproval
      cases hit : item.id with
      | none => simp
      | some s => simp [h, hit]
    · simp only [setMerge, if_neg h, List.map_cons, ih]

theorem take_append_take {α : Type} (A B : List α) (n : Nat) :
    (A ++ B.take n).take n = (A ++ B).take n := by
  rw [List.take_append_eq_append_take, List.take_append_eq_append_take, List.take_take]
  congr 1
  exact congrArg (fun m => B.take m) (Nat.min_eq_left (Nat.sub_le n A.length))

theorem upsert_fresh (st : ServerState) (item : ApprovalItem)
    (ht : jsTruthyS item.id = true)
    (hf : ∀ a ∈ st.approvals, a.id ≠ item.id) :
    approvalsUpsert st item =
      { st with approvals := (item :: st.approvals).take 20
                approvalPending := ((item :: st.approvals).take 20).head? } := by
  have hany : st.approvals.any (fun a => a.id = item.id) = false := by
    rw [List.any_eq_false]
    intro a ha
    simp [hf a ha]
  simp [approvalsUpsert, ht, hany]

theorem foldl_upsert_fresh :
    ∀ (items : List ApprovalItem) (st : ServerState),
      (∀ i ∈ items, jsTruthyS i.id = true) →
      items.Pairwise (fun a b => a.id ≠ b.id) →
      (∀ i ∈ items, ∀ a ∈ st.approvals, a.id ≠ i.id) →
      st.approvals.length ≤ 20 →
      (items.foldl approvalsUpsert st).approvals = (items.reverse ++ st.approvals).take 20 := by
  intro items
  induction items with
  | nil =>
    intro st _ _ _ hlen
    simp only [List.foldl_nil, List.reverse_nil, List.nil_append]
    exact (List.take_of_length_le hlen).symm
  | cons i rest ih =>
    intro st htr hpw hf hlen
    have hti : jsTruthyS i.id = true := htr i (List.mem_cons_self i rest)
    have hfi : ∀ a ∈ st.approvals, a.id ≠ i.id := fun a ha => hf i (List.mem_cons_self i rest) a ha
    have hstep := upsert_fresh st i hti hfi
    have hpw' := (List.pairwise_cons.mp hpw)
    rw [List.foldl_cons, hstep]
    have hrec := ih { st with approvals := (i :: st.approvals).take 20
                              approvalPending := ((i :: st.approvals).take 20).head? }
      (fun j hj => htr j (List.mem_cons_of_mem i hj))
      hpw'.2
      ?_ ?_
    · rw [hrec]
      show ((rest.reverse ++ ((i :: st.approvals).take 20)).take 20) = _
      rw [take_append_take]
      simp [List.append_assoc]
    · intro j hj a ha
      have ha' : a ∈ i :: st.approvals := List.take_subset 20 _ ha
      rcases List.mem_cons.mp ha' with h | h
      · rw [h]; exact hpw'.1 j hj
      · exact hf j (List.mem_cons_of_mem i hj) a h
    · rw [List.length_take]
      exact Nat.min_le_left 20 (i :: st.approvals).length

theorem rpcStep_inv (cid : Nat) (s : CallState) (e : RpcEvent) (h : rpcInv s) :
    rpcInv (rpcStep cid s e) := by
  obtain ⟨h1, h2⟩ := h
  unfold rpcInv
  cases e with
  | timerFire i =>
    simp only [rpcStep]
    split
    · next hc =>
      refine ⟨rfl, ?_⟩
      have hT : s.inTable = true := by rw [h1]; exact hc.2
      rw [hT] at h2
      simp at h2
      simp [h2.1, h2.2]
    · exact ⟨h1, h2⟩
  | message m =>
    simp only [rpcStep]
    split
    · split
      · next hin =>
        refine ⟨rfl, ?_⟩
        rw [hin] at h2
        simp at h2
        by_cases hr : replyRejects m <;> simp [hr, h2.1, h2.2]
      · next hni => exact ⟨h1, by rw [h2, if_neg hni]⟩
    · exact ⟨h1, h2⟩

theorem rpcStep_dead (cid : Nat) (s : CallState) (e : RpcEvent)
    (hin : s.inTable = false) (harm : s.timerArmed = false) :
    rpcStep cid s e = s := by
  cases e <;> simp [rpcStep, hin, harm]

theorem rpcFold_dead (cid : Nat) :
    ∀ (tr : List RpcEvent) (s : CallState), s.inTable = false → s.timerArmed = false →
      tr.foldl (rpcStep cid) s = s := by
  intro tr
  induction tr with
  | nil => intro s _ _; rfl
  | cons e rest ih =>
    intro s hin harm
    rw [List.foldl_cons, rpcStep_dead cid s e hin harm]
    exact ih s hin harm

theorem rpcFold_inv (cid : Nat) :
    ∀ (tr : List RpcEvent) (s : CallState), rpcInv s → rpcInv (tr.foldl (rpcStep cid) s) := by
  intro tr
  induction tr with
  | nil => intro s h; exact h
  | cons e rest ih =>
    intro s h
    rw [List.foldl_cons]
    exact ih _ (rpcStep_inv cid s e h)

theorem rpcFire_dead (cid : Nat) (s : CallState) (h : rpcInv s) :
    (rpcStep cid s (.timerFire cid)).inTable = false
    ∧ (rpcStep cid s (.timerFire cid)).timerArmed = false := by
  obtain ⟨h1, _⟩ := h
  simp only [rpcStep]
  split
  · simp
  · next hc =>
    have harm : s.timerArmed = false := by
      cases hb : s.timerArmed
      · rfl
      · exact absurd ⟨by simp, hb⟩ hc
    rw [h1]
    exact ⟨harm, harm⟩

theorem processLogLine_user (now : Nat) (st : ServerState) :
    processLogLine now st userLine =
      ({ st with pipelineActive := some "consultation"
                 gandalfCommand := "Hammer has spoken. Consulting the Council..." },
       [some "consultation"]) := rfl

theorem runTimers_notDue (t : Nat) (st : ServerState)
    (h : ∀ tm ∈ st.timers, t < tm.fireAt) : runTimers t st = st := by
  unfold runTimers
  cases hl : st.timers.length with
  | zero => rfl
  | succ n =>
    unfold advanceTo
    have hfil : st.timers.filter (fun tm => tm.fireAt ≤ t) = [] := by
      rw [List.filter_eq_nil_iff]
      intro tm htm
      simp only [decide_eq_true_eq]
      exact Nat.not_le.mpr (h tm htm)
    rw [hfil]
    rfl

theorem splitNl_ne_nil : ∀ l : List Char, splitNl l ≠ [] := by
  intro l
  cases l with
  | nil => simp [splitNl]
  | cons c rest =>
    simp only [splitNl]
    split
    · simp
    · split <;> simp

theorem getLast?_cons_ne {α : Type} (a : α) (L : List α) (h : L ≠ []) :
    (a :: L).getLast? = L.getLast? := by
  obtain ⟨x, xs, rfl⟩ := List.exists_cons_of_ne_nil h
  rw [List.getLast?_cons_cons]

theorem splitNl_last_shape : ∀ l : List Char, l.getLast? = some '\n' →
    (splitNl l).getLast? = some [] ∧ 2 ≤ (splitNl l).length := by
  intro l
  induction l with
  | nil => intro h; simp at h
  | cons c rest ih =>
    intro h
    cases rest with
    | nil =>
      simp at h
      subst h
      decide
    | cons d rest' =>
      have h' : (d :: rest').getLast? = some '\n' := by rwa [List.getLast?_cons_cons] at h
      obtain ⟨ih1, ih2⟩ := ih h'
      have estep : splitNl (c :: (d :: rest'))
          = if c = '\n' then [] :: splitNl (d :: rest')
            else (match splitNl (d :: rest') with
                  | [] => [[c]]
                  | l :: ls => (c :: l) :: ls) := rfl
      rw [estep]
      by_cases hc : c = '\n'
      · rw [if_pos hc]
        refine ⟨?_, ?_⟩
        · rw [getLast?_cons_ne _ _ (splitNl_ne_nil _)]
          exact ih1
        · simp only [List.length_cons]
          omega
      · rw [if_neg hc]
        obtain ⟨a, as, hsp⟩ := List.exists_cons_of_ne_nil (splitNl_ne_nil (d :: rest'))
        rw [hsp]
        rw [hsp] at ih1 ih2
        have has : as ≠ [] := by
          simp only [List.length_cons] at ih2
          exact List.ne_nil_of_length_pos (by omega)
        dsimp only
        refine ⟨?_, ?_⟩
        · rw [getLast?_cons_ne _ _ has]
          rw [getLast?_cons_ne _ _ has] at ih1
          exact ih1
        · simp only [List.length_cons] at ih2 ⊢
          omega

theorem splitNl_append (s t : List Char) (h : s.getLast? = some '\n') :
    splitNl (s ++ t) = (splitNl s).dropLast ++ splitNl t := by
  induction s with
  | nil => simp at h
  | cons c s' ih =>
    cases s' with
    | nil =>
      simp at h
      subst h
      simp [splitNl]
    | cons d s'' =>
      have h' : (d :: s'').getLast? = some '\n' := by rwa [List.getLast?_cons_cons] at h
      have ihh := ih h'
      have e1 : splitNl ((c :: (d :: s'')) ++ t)
          = if c = '\n' then [] :: splitNl ((d :: s'') ++ t)
            else (match splitNl ((d :: s'') ++ t) with
                  | [] => [[c]]
                  | l :: ls => (c :: l) :: ls) := rfl
      have e2 : splitNl (c :: (d :: s''))
          = if c = '\n' then [] :: splitNl (d :: s'')
            else (match splitNl (d :: s'') with
                  | [] => [[c]]
                  | l :: ls => (c :: l) :: ls) := rfl
      rw [e1, e2, ihh]
      obtain ⟨a, as, hsp⟩ := List.exists_cons_of_ne_nil (splitNl_ne_nil (d :: s''))
      rw [hsp]
      by_cases hc : c = '\n'
      · rw [if_pos hc, if_pos hc]
        simp
      · rw [if_neg hc, if_neg hc]
        obtain ⟨hlast, hlen⟩ := splitNl_last_shape (d :: s'') h'
        rw [hsp] at hlen
        have has : as ≠ [] := by
          simp only [List.length_cons] at hlen
          exact List.ne_nil_of_length_pos (by omega)
        obtain ⟨b, bs, rfl⟩ := List.exists_cons_of_ne_nil has
        dsimp only
        simp

theorem emitChunk_nil : emitChunk [] = [] := by decide

theorem emitChunk_append (s t : List Char) (h : s.getLast? = some '\n') :
    emitChunk (s ++ t) = emitChunk s ++ emitChunk t := by
  unfold emitChunk
  rw [splitNl_append s t h, List.filter_append]
  congr 1
  obtain ⟨hlast, hlen⟩ := splitNl_last_shape s h
  have hne : splitNl s ≠ [] := splitNl_ne_nil s
  have hgl : (splitNl s).getLast hne = [] := by
    have hq := List.getLast?_eq_getLast (splitNl s) hne
    rw [hlast] at hq
    exact (Option.some_injective _ hq.symm)
  have hdecomp : (splitNl s).dropLast ++ [[]] = splitNl s := by
    have hg := List.dropLast_append_getLast hne
    rw [hgl] at hg
    exact hg
  conv_rhs => rw [← hdecomp]
  rw [List.filter_append]
  simp [jsBlank]

theorem pollStep_eq (file : List Char) (out : List (List Char)) (c : List Char) :
    pollStep (file, file.length, out) c = (file ++ c, (file ++ c).length, out ++ emitChunk c) := by
  by_cases hc : c = []
  · subst hc
    simp [pollStep, readNewData, emitChunk_nil]
  · have hlen : file.length < (file ++ c).length := by
      rw [List.length_append]
      have := List.length_pos.mpr hc
      omega
    simp only [pollStep, readNewData, if_neg (Nat.not_le.mpr hlen)]
    rw [List.drop_left]

theorem pollAppends_go (chunks : List (List Char)) :
    ∀ (file : List Char) (out : List (List Char)),
      chunks.foldl pollStep (file, file.length, out)
      = (file ++ chunks.flatten, (file ++ chunks.flatten).length,
         out ++ (chunks.map emitChunk).flatten) := by
  induction chunks with
  | nil => intro file out; simp
  | cons c rest ih =>
    intro file out
    rw [List.foldl_cons, pollStep_eq, ih]
    simp [List.append_assoc]

theorem emit_flatten_aligned :
    ∀ chunks : List (List Char),
      (∀ c ∈ chunks, c = [] ∨ c.getLast? = some '\n') →
      emitChunk chunks.flatten = (chunks.map emitChunk).flatten := by
  intro chunks
  induction chunks with
  | nil => intro _; exact emitChunk_nil
  | cons c rest ih =>
    intro h
    have hc := h c (List.mem_cons_self c rest)
    have hrest := ih (fun x hx => h x (List.mem_cons_of_mem c hx))
    rw [List.flatten_cons, List.map_cons, List.flatten_cons]
    rcases hc with hnil | hlast
    · subst hnil
      rw [List.nil_append, emitChunk_nil, List.nil_append]
      exact hrest
    · rw [emitChunk_append c rest.flatten hlast, hrest]

/-! ## Claims -/

/-- Claim C1, counterexample: processing a tool-start line at time 0 and a user-message line at time 1000 and then letting the 3000 ms dwell elapse leaves the stage at Reflection, not Consultation: the stale timer scheduled by the tool branch fires and overwrites the stage set by the newer event. -/
theorem claim1_stale_timer_counterexample :
    (runScenario [(0, toolLine), (1000, userLine)] 3000 initState).pipelineActive = some "reflection"
    ∧ (runScenario [(0, toolLine), (1000, userLine)] 3000 initState).pipelineActive ≠ some "consultation" := by
  refine ⟨by decide, by decide⟩

/-- Claim C1, amended: for every interposition time t1 strictly between the tool-start event and the end of the 3000 ms dwell, the stage observed after the dwell is Reflection and not Consultation. The delayed stage revert checks nothing before applying and is never cancelled, so it clobbers the stage set by the newer user-message event; the claim that the stage would be Consultation is refuted. -/
theorem claim1_stale_timer_overwrites (t1 : Nat) (_h0 : 0 < t1) (h3 : t1 < 3000) :
    (runScenario [(0, toolLine), (t1, userLine)] 3000 initState).pipelineActive
      = some "reflection"
    ∧ (runScenario [(0, toolLine), (t1, userLine)] 3000 initState).pipelineActive
      ≠ some "consultation" := by
  have hrun : runScenario [(0, toolLine), (t1, userLine)] 3000 initState
      = runTimers 3000 (processLogLine t1
          (runTimers t1 (processLogLine 0 (runTimers 0 initState) toolLine).1) userLine).1 := rfl
  have h00 : runTimers 0 initState = initState := rfl
  have hdue : ∀ tm ∈ (processLogLine 0 initState toolLine).1.timers, t1 < tm.fireAt := by
    intro tm htm
    have he : (processLogLine 0 initState toolLine).1.timers
        = [⟨3000, TimerAction.toolRevert "celebrimbor"⟩] := rfl
    rw [he] at htm
    simp at htm
    rw [htm]
    exact h3
  rw [hrun, h00, runTimers_notDue t1 _ hdue, processLogLine_user]
  refine ⟨by decide, by decide⟩

/-- Claim C1, witness for the amended theorem at t1 = 1000. -/
theorem claim1_stale_timer_overwrites_witness :
    (0 < 1000) ∧ (1000 < 3000)
    ∧ (runScenario [(0, toolLine), (1000, userLine)] 3000 initState).pipelineActive
        = some "reflection" :=
  ⟨by decide, by decide, (claim1_stale_timer_overwrites 1000 (by decide) (by decide)).1⟩

/-- Claim C2, counterexample: splitting the append ab-newline into the two polls a and b-newline yields the emitted lines a, b, while a single poll yields the one line ab, so poll granularity changes the emitted lines; moreover the offset advances past the unterminated fragment a (to 1) on the first poll, so its bytes are marked consumed before any terminator arrives. -/
theorem claim2_tailer_split_counterexample :
    (pollAppends ["a".toList, "b\n".toList]).2.2 = [['a'], ['b']]
    ∧ (pollAppends ["ab\n".toList]).2.2 = [['a', 'b']]
    ∧ (pollAppends ["a".toList, "b\n".toList]).2.2 ≠ (pollAppends ["ab\n".toList]).2.2
    ∧ (pollAppends ["a".toList]).2.1 = 1 := by
  refine ⟨by decide, by decide, by decide, by decide⟩

/-- Claim C2, amended: the tailer keeps no partial-line buffer and each poll consumes every new byte, emitting every non-blank newline-split segment of the chunk including an unterminated trailing fragment. Concatenation is reproduced only at line granularity: when every appended chunk ends with a newline (or is empty), polling the appends one by one emits exactly the same lines as a single poll of the whole file, and the final offset equals the file size. -/
theorem claim2_tailer_line_aligned (chunks : List (List Char))
    (h : ∀ c ∈ chunks, c = [] ∨ c.getLast? = some '\n') :
    (pollAppends chunks).2.2 = (readNewData chunks.flatten 0).2
    ∧ (pollAppends chunks).2.1 = chunks.flatten.length := by
  have hg := pollAppends_go chunks [] []
  have hpoll : pollAppends chunks
      = (chunks.flatten, chunks.flatten.length, (chunks.map emitChunk).flatten) := by
    unfold pollAppends
    have h00 : ((([] : List Char), 0, ([] : List (List Char))))
        = ((([] : List Char), ([] : List Char).length, ([] : List (List Char)))) := rfl
    rw [h00, hg]
    simp
  rw [hpoll]
  refine ⟨?_, rfl⟩
  by_cases hflat : chunks.flatten = []
  · have hemit : (chunks.map emitChunk).flatten = [] := by
      rw [← emit_flatten_aligned chunks h, hflat, emitChunk_nil]
    rw [hflat, hemit]
    rfl
  · have hlen : 0 < chunks.flatten.length := List.length_pos.mpr hflat
    simp only [readNewData, if_neg (Nat.not_le.mpr hlen), List.drop_zero]
    exact (emit_flatten_aligned chunks h).symm

/-- Claim C2, witness for the amended theorem on the line-aligned appends ab-newline and c-newline. -/
theorem claim2_tailer_line_aligned_witness :
    (∀ c ∈ [('a' :: 'b' :: '\n' :: []), ('c' :: '\n' :: [])], c = [] ∨ c.getLast? = some '\n')
    ∧ (pollAppends [('a' :: 'b' :: '\n' :: []), ('c' :: '\n' :: [])]).2.2
        = (readNewData ([('a' :: 'b' :: '\n' :: []), ('c' :: '\n' :: [])].flatten) 0).2 :=
  ⟨by decide,
   (claim2_tailer_line_aligned [('a' :: 'b' :: '\n' :: []), ('c' :: '\n' :: [])] (by decide)).1⟩

/-- Claim C3: for a pending RPC call whose reply and timeout race, exactly one of resolve and reject is invoked, never both and never neither (the timeout of an unanswered call always fires), the table entry is retired by exactly the winning path, and a reply arriving when the id is no longer in the table is a no-op. -/
theorem claim3_rpc_exactly_once (cid : Nat) (tr : List RpcEvent)
    (hmem : RpcEvent.timerFire cid ∈ tr) :
    ((tr.foldl (rpcStep cid) gwRequestInit).resolves
        + (tr.foldl (rpcStep cid) gwRequestInit).rejects = 1)
    ∧ (tr.foldl (rpcStep cid) gwRequestInit).inTable = false
    ∧ (∀ (s : CallState) (m : GwMsg), s.inTable = false →
        rpcStep cid s (.message m) = s) := by
  obtain ⟨l1, l2, rfl⟩ := List.append_of_mem hmem
  have hinit : rpcInv gwRequestInit := by constructor <;> rfl
  have hinv1 : rpcInv (l1.foldl (rpcStep cid) gwRequestInit) := rpcFold_inv cid l1 _ hinit
  set s1 := l1.foldl (rpcStep cid) gwRequestInit with hs1
  have hfire := rpcFire_dead cid s1 hinv1
  have hinv2 : rpcInv (rpcStep cid s1 (.timerFire cid)) := rpcStep_inv cid s1 _ hinv1
  have hfold : (l1 ++ RpcEvent.timerFire cid :: l2).foldl (rpcStep cid) gwRequestInit
      = rpcStep cid s1 (.timerFire cid) := by
    rw [List.foldl_append, List.foldl_cons]
    exact rpcFold_dead cid l2 _ hfire.1 hfire.2
  rw [hfold]
  obtain ⟨hi1, hi2⟩ := hinv2
  rw [hfire.1] at hi2
  simp at hi2
  refine ⟨hi2, hfire.1, ?_⟩
  intro s m hin
  simp [rpcStep, hin]

/-- Claim C3, witness on the concrete trace where the timeout fires first and the reply arrives afterwards. -/
theorem claim3_rpc_exactly_once_witness :
    (RpcEvent.timerFire 1 ∈ trW)
    ∧ ((trW.foldl (rpcStep 1) gwRequestInit).resolves
        + (trW.foldl (rpcStep 1) gwRequestInit).rejects = 1)
    ∧ (trW.foldl (rpcStep 1) gwRequestInit).inTable = false :=
  ⟨by decide,
   (claim3_rpc_exactly_once 1 trW (by decide)).1,
   (claim3_rpc_exactly_once 1 trW (by decide)).2.1⟩

/-- Claim C4, counterexample: closing the connection while call 7 is pending leaves call 7 in the pending table: the close handler fails no pending call, so the claim that every pending call fails immediately on connection loss is false. -/
theorem claim4_onclose_counterexample :
    gwOnClose ⟨true, [7], none⟩ = ⟨false, [7], some 1000⟩
    ∧ (gwOnClose ⟨true, [7], none⟩).rpcPendingIds ≠ [] := by
  refine ⟨by decide, by decide⟩

/-- Claim C4, amended: on connection loss the client marks itself disconnected and schedules a reconnect attempt after a fixed 1000 ms delay, but leaves every pending call untouched; each pending call fails only when its own 10 s timeout fires. -/
theorem claim4_onclose_behavior (s : GwConn) :
    (gwOnClose s).gwConnected = false
    ∧ (gwOnClose s).reconnectDelay = some 1000
    ∧ (gwOnClose s).rpcPendingIds = s.rpcPendingIds := by
  refine ⟨rfl, rfl, rfl⟩

/-- Claim C5: upserting 25 approval requests with pairwise distinct truthy ids into the initially empty ledger leaves exactly 20 entries, namely the 20 most recently upserted requests in most-recent-first order; the 5 oldest are evicted. -/
theorem claim5_ledger_bound (items : List ApprovalItem)
    (h25 : items.length = 25)
    (htr : ∀ i ∈ items, jsTruthyS i.id = true)
    (hpw : items.Pairwise (fun a b => a.id ≠ b.id)) :
    (items.foldl approvalsUpsert initState).approvals = items.reverse.take 20
    ∧ (items.foldl approvalsUpsert initState).approvals.length = 20 := by
  have h := foldl_upsert_fresh items initState htr hpw (by intro i _ a ha; simp [initState] at ha) (by simp [initState])
  have hinit : initState.approvals = [] := rfl
  rw [hinit, List.append_nil] at h
  refine ⟨h, ?_⟩
  rw [h, List.length_take, List.length_reverse, h25]
  decide

/-- Claim C5, witness on 25 concrete requests with distinct ids. -/
theorem claim5_ledger_bound_witness :
    w25.length = 25
    ∧ (w25.foldl approvalsUpsert initState).approvals = w25.reverse.take 20
    ∧ (w25.foldl approvalsUpsert initState).approvals.length = 20 :=
  ⟨by decide,
   (claim5_ledger_bound w25 (by decide) (by decide) (by decide)).1,
   (claim5_ledger_bound w25 (by decide) (by decide) (by decide)).2⟩

/-- Claim C6, counterexample: a single line whose message contains both the user-message pattern and the run-finished pattern performs two stage writes, consultation then delivery, so the first matching rule does not win across these two rules and a single line can produce more than one stage effect. -/
theorem claim6_first_match_counterexample :
    (processLogLine 0 initState bothLine).2 = [some "consultation", some "delivery"]
    ∧ ¬ ((processLogLine 0 initState bothLine).2.length ≤ 1) := by
  refine ⟨by decide, by decide⟩

/-- Claim C6, amended: the approval rules and the tool rule return on match, so they are mutually exclusive first-match-wins; the user-message and run-finished checks however are two independent conditionals, so a line performs at most one stage write unless it matches both of those patterns, in which case it performs exactly the two writes consultation then delivery. -/
theorem claim6_stage_writes (now : Nat) (st : ServerState) (line : Line) :
    (processLogLine now st line).2.length ≤ 1
    ∨ (processLogLine now st line).2 = [some "consultation", some "delivery"] := by
  cases line with
  | raw s => left; simp [processLogLine]
  | parsed log =>
    simp only [processLogLine]
    repeat' split
    all_goals (try simp)

/-- Claim C7, counterexample: with the file shrunk to 3 bytes and the cursor at offset 10, a poll leaves the offset at 10 and emits nothing; the offset is not reset to 0, so reading does not resume from the start of the file. -/
theorem claim7_truncation_counterexample :
    readNewData "abc".toList 10 = (10, []) ∧ (readNewData "abc".toList 10).1 ≠ 0 := by
  refine ⟨by decide, by decide⟩

/-- Claim C7, amended: whenever the file size is at most the cursor offset, including the truncation case size strictly smaller than offset, the poll does nothing: no bytes are read, nothing is emitted, and the offset is left unchanged; truncation is not detected. -/
theorem claim7_shrunk_file_noop (file : List Char) (offset : Nat) (h : file.length ≤ offset) :
    readNewData file offset = (offset, []) := by
  simp [readNewData, h]

/-- Claim C7, witness for the amended theorem at file abc and offset 10. -/
theorem claim7_shrunk_file_noop_witness :
    ("abc".toList.length ≤ 10) ∧ readNewData "abc".toList 10 = (10, []) :=
  ⟨by decide, claim7_shrunk_file_noop "abc".toList 10 (by decide)⟩

/-- Claim C8, counterexample: a raw line that fails JSON parsing and whose text matches the textual approval rule produces no event and no state change in the current processLogLine, whose catch block is empty: extraction does not degrade to text matching on the raw line. -/
theorem claim8_parse_failure_counterexample :
    (processLogLine 0 initState (.raw rawApprovalLine)).1 = initState
    ∧ (processLogLine 0 initState (.raw rawApprovalLine)).2 = []
    ∧ jsIncludes rawApprovalLine "Approval required" = true
    ∧ initState.pipelineActive ≠ some "assignment"
    ∧ initState.approvalPending = none := by
  refine ⟨rfl, rfl, by decide, by decide, rfl⟩

/-- Claim C8, amended: a parse failure never raises and never yields an approval or user-message event; in the part_000 and part_001 variants the line is dropped entirely, and in the older server.mjs variant the only fallback is the Calling-tool check, which at most sets the stage to execution. -/
theorem claim8_parse_failure_fallback (now : Nat) (st : ServerState) (s : String) :
    processLogLine now st (.raw s) = (st, [])
    ∧ (processLogLineV0Fallback st s = st
       ∨ processLogLineV0Fallback st s = { st with pipelineActive := some "execution" }) := by
  refine ⟨rfl, ?_⟩
  unfold processLogLineV0Fallback
  split
  · exact Or.inl rfl
  · split
    · exact Or.inr rfl
    · exact Or.inl rfl

/-- Claim C9, counterexample: upserting id b, which sits behind id a in the ledger, merges in place and leaves a at the front: the entry is not moved to the front, refuting the move-to-front clause of the claim. -/
theorem claim9_move_to_front_counterexample :
    (approvalsUpsert ledgerAB itemB2).approvals.map (fun a => a.id) = [some "a", some "b"]
    ∧ (approvalsUpsert ledgerAB itemB2).approvals.head? ≠ some (mergeApproval itemB itemB2)
    ∧ (approvalsUpsert ledgerAB itemB2).approvals.head? = some itemA := by
  refine ⟨by decide, by decide, by decide⟩

/-- Claim C9, amended: upserting an id already present merges the new fields into the existing entry at its current position, preserving the order of ids, then truncates to capacity 20; the entry is not moved to the front. -/
theorem claim9_upsert_merge_in_place (st : ServerState) (item : ApprovalItem)
    (ht : jsTruthyS item.id = true)
    (hex : st.approvals.any (fun a => a.id = item.id) = true) :
    (approvalsUpsert st item).approvals = (setMerge item st.approvals).take 20
    ∧ (approvalsUpsert st item).approvals.map (fun a => a.id)
        = (st.approvals.map (fun a => a.id)).take 20
    ∧ (approvalsUpsert st item).approvalPending
        = ((setMerge item st.approvals).take 20).head? := by
  have h1 : (approvalsUpsert st item).approvals = (setMerge item st.approvals).take 20 := by
    simp [approvalsUpsert, ht, hex]
  refine ⟨h1, ?_, ?_⟩
  · rw [h1, List.map_take, setMerge_map_id]
  · simp [approvalsUpsert, ht, hex]

/-- Claim C9, witness for the amended theorem on the two-entry ledger. -/
theorem claim9_upsert_merge_in_place_witness :
    jsTruthyS itemB2.id = true
    ∧ ledgerAB.approvals.any (fun a => a.id = itemB2.id) = true
    ∧ (approvalsUpsert ledgerAB itemB2).approvals = (setMerge itemB2 ledgerAB.approvals).take 20
    ∧ (approvalsUpsert ledgerAB itemB2).approvals.map (fun a => a.id)
        = (ledgerAB.approvals.map (fun a => a.id)).take 20 :=
  ⟨by decide, by decide,
   (claim9_upsert_merge_in_place ledgerAB itemB2 (by decide) (by decide)).1,
   (claim9_upsert_merge_in_place ledgerAB itemB2 (by decide) (by decide)).2.1⟩

/-- Claim C10: upserting an item whose id is absent or otherwise falsy is a complete no-op on every prior state: the approvals list, the derived pending-approval field, and every other state field are unchanged. -/
theorem claim10_falsy_id_noop (st : ServerState) (item : ApprovalItem) (h : jsTruthyS item.id = false) : approvalsUpsert st item = st := by
  simp [approvalsUpsert, h]

/-- Claim C10, witness on an item without id against a non-empty ledger. -/
theorem claim10_falsy_id_noop_witness : jsTruthyS noIdItem.id = false ∧ approvalsUpsert ledgerAB noIdItem = ledgerAB :=
  ⟨by decide, claim10_falsy_id_noop ledgerAB noIdItem (by decide)⟩
